import Mathlib

/-!
Formal model of the data-reconciliation pipeline of `Analysis.py`
(COVID-19 data exploration notebook).

The notebook manipulates pandas DataFrames.  We embed the pipeline
shallowly:

* a cell value that may be NaN or infinite is a `FloatVal`;
* a table is a `List` of `Row`s, a `Row` being a key (the `COUNTRY` /
  `STATE` column used for joins) together with the remaining fields;
* `leftMerge` models `DataFrame.merge(on=key, how='left')`;
* string cell cleaning (`replace('\n','')`, `replace(',','')`,
  `strip('+')`, `str.strip()`) is modelled character-list-wise;
* `pd.to_numeric(errors='coerce')` is modelled by a sign / digits /
  decimal-point parser returning NaN on failure;
* the derived-metric divisions follow IEEE behaviour: `x / 0` is
  `±inf` for `x ≠ 0` and NaN for `0 / 0`.

The file is organised as definitions first, then the lemmas and the
claim theorems.
-/

namespace Covid

/-- A floating-point cell value: a finite number (modelled as a rational),
positive or negative infinity, or NaN (also used for a pandas null). -/
inductive FloatVal : Type
  | num (q : ℚ)
  | posInf
  | negInf
  | nan
deriving DecidableEq, Repr

/-- IEEE-style division used by pandas/numpy for the derived metrics:
a zero denominator gives `±inf` for a nonzero numerator and NaN for `0/0`. -/
def fdiv (a b : ℚ) : FloatVal :=
  if b = 0 then
    if 0 < a then .posInf
    else if a < 0 then .negInf
    else .nan
  else .num (a / b)

/-- `df.replace([np.inf, -np.inf], 0)` on a single cell
(`Analysis.py` line 524). -/
def replaceInfsZero : FloatVal → FloatVal
  | .posInf => .num 0
  | .negInf => .num 0
  | v => v

/-- `df.fillna(0)` on a single cell (`Analysis.py` line 396): NaN
(pandas null) becomes 0. -/
def fillna0 : FloatVal → FloatVal
  | .nan => .num 0
  | v => v

/-- `df.replace(np.inf, 0)` on a single cell (`Analysis.py` line 398):
only positive infinity is replaced. -/
def replacePosInfZero : FloatVal → FloatVal
  | .posInf => .num 0
  | v => v

/-! ### String cell utilities (character-list level) -/

/-- Remove every occurrence of character `c`
(models `df.replace(c, '', regex=True)` on a string cell). -/
def removeAllChar (c : Char) (s : String) : String :=
  ⟨s.data.filter (fun x => x ≠ c)⟩

/-- Strip every copy of character `c` from both ends of the string
(models Python `str.strip('+')` as used in `applymap`,
`Analysis.py` lines 328 and 632). -/
def stripCharBoth (c : Char) (s : String) : String :=
  ⟨(((s.data.dropWhile (fun x => x = c)).reverse.dropWhile
      (fun x => x = c)).reverse)⟩

/-- Strip every copy of character `c` from the front of the string only
(used below to model the specification's words, which speak of
"leading" sign markers). -/
def stripCharLeft (c : Char) (s : String) : String :=
  ⟨s.data.dropWhile (fun x => x = c)⟩

/-- Python whitespace test for `str.strip()`. -/
def isPyWS (c : Char) : Bool :=
  c = ' ' ∨ c = '\t' ∨ c = '\n' ∨ c = '\r' ∨ c = '\x0b' ∨ c = '\x0c'

/-- Python `str.strip()`: remove leading and trailing whitespace
(`Analysis.py` lines 579-580, 1072). -/
def stripWS (s : String) : String :=
  ⟨((s.data.dropWhile isPyWS).reverse.dropWhile isPyWS).reverse⟩

/-! ### Tables and the left merge -/

/-- One row of a working table: the join key (the `COUNTRY` or `STATE`
column) and the remaining columns, of a per-table type `α`. -/
structure Row (α : Type) : Type where
  key : String
  fields : α
deriving DecidableEq, Repr

/-- `base.merge(aux, on=key, how='left')` (`Analysis.py` lines 507, 566,
581): every base row is kept in order; a base row is paired with each
auxiliary row sharing its key, or with `none` when no auxiliary row
matches; auxiliary rows matching no base key contribute nothing. -/
def leftMerge (base : List (Row α)) (aux : List (Row β)) :
    List (Row (α × Option β)) :=
  match base with
  | [] => []
  | b :: rest =>
      (let ms := aux.filter (fun a => a.key = b.key)
       if ms.isEmpty then [⟨b.key, (b.fields, none)⟩]
       else ms.map (fun a => ⟨b.key, (b.fields, some a.fields)⟩))
      ++ leftMerge rest aux

/-- The rows produced for one base row by the left merge. -/
def mergeGroup (b : Row α) (aux : List (Row β)) : List (Row (α × Option β)) :=
  let ms := aux.filter (fun a => a.key = b.key)
  if ms.isEmpty then [⟨b.key, (b.fields, none)⟩]
  else ms.map (fun a => ⟨b.key, (b.fields, some a.fields)⟩)

/-- The auxiliary fields found for key `k`, when the auxiliary table has
at most one row per key. -/
def lookupAux (aux : List (Row β)) (k : String) : Option β :=
  (aux.find? (fun a => a.key = k)).map Row.fields

/-! ### The Key Reconciler: alias tables and their application -/

/-- One `series.replace(old, new)` step on a single cell: pandas
`Series.replace` with two strings substitutes the value only on an
exact full-cell match. -/
def aliasStep (p : String × String) (s : String) : String :=
  if s = p.1 then p.2 else s

/-- Apply a chain of `series.replace(old, new)` calls, in program order,
to a single cell. -/
def applyAliases (l : List (String × String)) (s : String) : String :=
  l.foldl (fun acc p => aliasStep p acc) s

/-- The alias table applied to `global_data.COUNTRY`
(`Analysis.py` lines 374-375), in program order. -/
def globalAliases : List (String × String) :=
  [("USA", "United States"),
   ("UK", "United Kingdom")]

/-- The alias table applied to `country_area.COUNTRY`
(`Analysis.py` lines 477-492), in program order. -/
def areaAliases : List (String × String) :=
  [("United Arab Emirates", "UAE"),
   ("State of Palestine", "Palestine"),
   ("Republic of North Macedonia", "North Macedonia"),
   ("South Korea", "S. Korea"),
   ("Côte d'Ivoire", "Ivory Coast"),
   ("DR Congo", "DRC"),
   ("China Hong Kong SAR", "Hong Kong"),
   ("Central African Republic", "CAR"),
   ("Turks and Caicos Islands", "Turks and Caicos"),
   ("Saint Vincent and the Grenadines", "St. Vincent Grenadines"),
   ("Saint Barthélemy", "St. Barth"),
   ("Brunei Darussalam", "Brunei"),
   ("Wallis and Futuna Islands", "Wallis and Futuna"),
   ("China Macao SAR", "Macao"),
   ("Holy See", "Vatican City"),
   ("Saint Pierre and Miquelon", "Saint Pierre Miquelon")]

/-- The transformation actually applied to a `country_area.COUNTRY` cell
before the land-area merge: the alias chain (`Analysis.py` lines
477-492) followed, later, by `str.strip()` (line 580). -/
def areaKeyPipeline (s : String) : String :=
  stripWS (applyAliases areaAliases s)

/-- The key transformation as the specification words it (strip
leading/trailing whitespace BEFORE the alias lookup); stated only to be
compared with `areaKeyPipeline`, which follows the source. -/
def areaKeySpecOrder (s : String) : String :=
  applyAliases areaAliases (stripWS s)

/-- The transformation actually applied to a `global_data.COUNTRY` cell
before the land-area merge: the alias chain (`Analysis.py` lines
374-375) followed, later, by `str.strip()` (line 579). -/
def globalKeyPipeline (s : String) : String :=
  stripWS (applyAliases globalAliases s)

/-! ### Numeric coercion (`pd.to_numeric(errors='coerce')`) -/

/-- Value of a digit string read in base 10. -/
def digitsVal (cs : List Char) : ℕ :=
  cs.foldl (fun n c => 10 * n + (c.toNat - 48)) 0

/-- Parse an unsigned decimal numeral: digits with an optional decimal
point (at least one digit overall). -/
def parseUnsigned (cs : List Char) : Option ℚ :=
  let intPart := cs.takeWhile Char.isDigit
  let rest := cs.dropWhile Char.isDigit
  match rest with
  | [] => if intPart.isEmpty then none else some (digitsVal intPart)
  | '.' :: frac =>
      if frac.all Char.isDigit && !(intPart.isEmpty && frac.isEmpty) then
        some ((digitsVal intPart : ℚ) +
          (digitsVal frac : ℚ) / (10 : ℚ) ^ frac.length)
      else none
  | _ => none

/-- Parse an optionally signed decimal numeral. -/
def parseSigned (cs : List Char) : Option ℚ :=
  match cs with
  | '-' :: rest => (parseUnsigned rest).map Neg.neg
  | '+' :: rest => parseUnsigned rest
  | _ => parseUnsigned cs

/-- `pd.to_numeric(cell, errors='coerce')` on one cell (`Analysis.py`
lines 393 and 681): surrounding whitespace is tolerated, a decimal
numeral parses to its value, and anything unparseable becomes NaN
(the pandas null) instead of raising. -/
def toNumericCoerce (s : String) : FloatVal :=
  match parseSigned (stripWS s).data with
  | some q => .num q
  | none => .nan

/-- The full numeric normalization of one `global_data` cell:
`pd.to_numeric(errors='coerce')` (line 393), then `fillna(0)`
(line 396), `replace(np.nan, 0)` (line 397, a no-op after the fill) and
`replace(np.inf, 0)` (line 398). -/
def globalNumericCell (c : String) : FloatVal :=
  replacePosInfZero (fillna0 (toNumericCoerce c))

/-- The numeric normalization of one `us_data` cell
(`Analysis.py` lines 681-685): only `pd.to_numeric(errors='coerce')`
is applied — there is no `fillna`, so parse failures stay NaN (the
notebook itself then lists the states left with nulls). -/
def usNumericCell (c : String) : FloatVal :=
  toNumericCoerce c

/-! ### The Derived Metrics Calculator -/

/-- `global_data['DEATH_RATE'] = TOTALDEATHS / TOTALCASES` (line 517)
followed by `replace([np.inf, -np.inf], 0)` (line 524). -/
def globalDeathRate (deaths cas : ℚ) : FloatVal :=
  replaceInfsZero (fdiv deaths cas)

/-- `global_data['SURVIVAL_RATE'] = TOTALRECOVERED / TOTALCASES`
(line 520) followed by `replace([np.inf, -np.inf], 0)` (line 524). -/
def globalSurvivalRate (recov cas : ℚ) : FloatVal :=
  replaceInfsZero (fdiv recov cas)

/-- `global_data['PERCENT_TESTS_POSITIVE'] = TOTALCASES / TOTALTESTS`
(line 523) followed by `replace([np.inf, -np.inf], 0)` (line 524). -/
def globalPercentTestsPositive (cas tests : ℚ) : FloatVal :=
  replaceInfsZero (fdiv cas tests)

/-- `global_data['POPULATION_DENSITY'] = POPULATION / LAND_AREA`
(line 588): computed AFTER the replacement at line 524, so no
infinity replacement applies to it. -/
def populationDensity (pop area : ℚ) : FloatVal :=
  fdiv pop area

/-- `us_data['DEATH_RATE'] = TOTALDEATHS / TOTALCASES` (line 696); the
replacement at line 704 is commented out, so nothing is replaced. -/
def usDeathRate (deaths cas : ℚ) : FloatVal :=
  fdiv deaths cas

/-- `us_data['SURVIVAL_RATE'] = TOTALRECOVERED / TOTALCASES`
(line 699); no replacement applies. -/
def usSurvivalRate (recov cas : ℚ) : FloatVal :=
  fdiv recov cas

/-- `us_data['PERCENT_TESTS_POSITIVE'] = TOTALCASES / TOTALTESTS`
(line 702); no replacement applies. -/
def usPercentTestsPositive (cas tests : ℚ) : FloatVal :=
  fdiv cas tests

/-! ### Raw cell cleaning -/

/-- The cell cleaning actually applied to every raw cell by
`Analysis.py` (lines 325-328 for `global_data`, lines 629-632 for
`us_data`): remove all newline characters, then all commas, then strip
the character `'+'` from BOTH ends (`str.strip('+')`).  No
surrounding-whitespace strip is applied here. -/
def cleanCell (s : String) : String :=
  stripCharBoth '+' (removeAllChar ',' (removeAllChar '\n' s))

/-- The cell cleaning as the claim words it (strip newlines, then
commas, then LEADING `'+'` markers, then surrounding whitespace);
stated only to be compared with `cleanCell`, which follows the
source. -/
def cleanCellSpecOrder (s : String) : String :=
  stripWS (stripCharLeft '+' (removeAllChar ',' (removeAllChar '\n' s)))

/-! ### Row exclusion and the GDP null-repair workflow -/

/-- The fixed exclusion list of non-geographic entries: the two ships
(`Analysis.py` line 570). -/
def shipExclusions : List String :=
  ["Diamond Princess", "MS Zaandam"]

/-- `global_data.drop(['Diamond Princess', 'MS Zaandam'], axis=0)` with
`COUNTRY` as the index (lines 569-570): remove exactly the rows whose
key is on the fixed exclusion list. -/
def dropExcluded (t : List (Row α)) : List (Row α) :=
  t.filter (fun r => r.key ∉ shipExclusions)

/-- Dropping the `GDP_PER_CAPITA` column of one row
(`Analysis.py` line 563); the row's fields are the GDP cell paired with
the remaining columns. -/
def dropGdpColumn (b : Row (Option ℚ × γ)) : Row γ :=
  ⟨b.key, b.fields.2⟩

/-- The exported `gdp_entry` table (`Analysis.py` line 545): the
`COUNTRY` and `GDP_PER_CAPITA` columns of every row. -/
def gdpEntryExport (base : List (Row (Option ℚ × γ))) : List (Row (Option ℚ)) :=
  base.map (fun b => ⟨b.key, b.fields.1⟩)

/-- The GDP null-repair workflow (`Analysis.py` lines 560-566): drop the
old `GDP_PER_CAPITA` column from every row, then left-merge the
corrected table `gdp_df_update` back on `COUNTRY`. -/
def gdpRepair (base : List (Row (Option ℚ × γ))) (upd : List (Row ℚ)) :
    List (Row (γ × Option ℚ)) :=
  leftMerge (base.map dropGdpColumn) upd

/-! ### The eight-state in-place patch of `us_data` -/

/-- One row of the cleaned `us_data` table: the `STATE` key, the
`TOTALCASES` count, the three patched columns, and the remaining
columns (of a type parameter `δ`). -/
structure USRow (δ : Type) : Type where
  state : String
  totalcases : ℚ
  totalrecovered : FloatVal
  activecases : FloatVal
  survival_rate : FloatVal
  rest : δ
deriving DecidableEq, Repr

/-- One state's three `.at` assignments (e.g. `Analysis.py` lines
1086-1088): on the row whose `STATE` equals the patched name, set
`TOTALRECOVERED` and `ACTIVECASES` to the scraped values and recompute
`SURVIVAL_RATE` as the scraped recovered count over the row's (untouched)
`TOTALCASES`; other rows are untouched.  The three assignments write
disjoint fields and read only `TOTALCASES`, which none of them writes,
so they are collapsed into one row update. -/
def patchRow (p : String × ℚ × ℚ) (r : USRow δ) : USRow δ :=
  if r.state = p.1 then
    { r with totalrecovered := .num p.2.1, activecases := .num p.2.2,
             survival_rate := fdiv p.2.1 r.totalcases }
  else r

/-- Apply one state's patch to the whole table (the `.at` assignments
address the row(s) with the given `STATE` index label). -/
def setStateValues (p : String × ℚ × ℚ) (t : List (USRow δ)) : List (USRow δ) :=
  t.map (patchRow p)

/-- The eight patched states with their scraped (recovered, active)
values, in program order (`Analysis.py` lines 1086-1116). -/
def usPatchList (hr ha sr sa ir ia wr wa ar aa lr la nr na mr ma : ℚ) :
    List (String × ℚ × ℚ) :=
  [("Hawaii", hr, ha), ("South Carolina", sr, sa), ("Indiana", ir, ia),
   ("Wisconsin", wr, wa), ("Alabama", ar, aa), ("Louisiana", lr, la),
   ("Nebraska", nr, na), ("Maine", mr, ma)]

/-- Apply a list of state patches to the table, in order. -/
def patchStates (ps : List (String × ℚ × ℚ)) (t : List (USRow δ)) :
    List (USRow δ) :=
  ps.foldl (fun acc p => setStateValues p acc) t

/-- The effect of a list of state patches on a single row. -/
def patchRowAll (ps : List (String × ℚ × ℚ)) (r : USRow δ) : USRow δ :=
  ps.foldl (fun r p => patchRow p r) r

/-! ### Sorting by `TOTALCASES` and the top-ten table -/

/-- Row comparison for `sort_values(['TOTALCASES'], ascending=False)`
(`Analysis.py` line 411): `x` precedes `y` when `x`'s `TOTALCASES`
measure is at least `y`'s. -/
def casesDesc (m : α → ℤ) (x y : Row α) : Prop :=
  m y.fields ≤ m x.fields

instance (m : α → ℤ) : DecidableRel (casesDesc m) :=
  fun x y => inferInstanceAs (Decidable (m y.fields ≤ m x.fields))

instance (m : α → ℤ) : IsTotal (Row α) (casesDesc m) :=
  ⟨fun x y => le_total (m y.fields) (m x.fields)⟩

instance (m : α → ℤ) : IsTrans (Row α) (casesDesc m) :=
  ⟨fun _ _ _ h1 h2 => le_trans h2 h1⟩

/-- `global_data.sort_values(['TOTALCASES'], ascending=False)`
(`Analysis.py` line 411): reorder the rows so that the `TOTALCASES`
measure is non-increasing. -/
def sortByCasesDesc (m : α → ℤ) (t : List (Row α)) : List (Row α) :=
  List.insertionSort (casesDesc m) t

/-- The row-order-relevant steps of the global pipeline from the sort to
the table from which `top_cases` is taken: sort by `TOTALCASES`
descending (line 411), left-merge `country_gdp` (line 507), drop the
`GDP_PER_CAPITA` column (line 563, a per-row map), left-merge
`gdp_df_update` (line 566), drop the ship rows (line 570), left-merge
`country_area` (line 581).  Column-only operations between these steps
(the derived-metric columns, lines 517-524 and 588) act per row and
neither reorder nor drop rows, so they do not appear in the order
model. -/
def globalWorking (m : α → ℤ) (g : List (Row α)) (gdp : List (Row (Option ℚ)))
    (upd : List (Row γ)) (area : List (Row ε)) :
    List (Row ((α × Option γ) × Option ε)) :=
  leftMerge
    (dropExcluded
      (leftMerge
        ((leftMerge (sortByCasesDesc m g) gdp).map (fun r => ⟨r.key, r.fields.1⟩))
        upd))
    area

/-- `top_cases = global_data[:10]` (`Analysis.py` line 1169): the first
ten records of the working table. -/
def topCases (m : α → ℤ) (g : List (Row α)) (gdp : List (Row (Option ℚ)))
    (upd : List (Row γ)) (area : List (Row ε)) :
    List (Row ((α × Option γ) × Option ε)) :=
  (globalWorking m g gdp upd area).take 10

/-!
## Lemmas and claim theorems
-/

/-! ### Basic facts about the left merge -/

theorem leftMerge_cons (b : Row α) (rest : List (Row α)) (aux : List (Row β)) :
    leftMerge (b :: rest) aux = mergeGroup b aux ++ leftMerge rest aux := rfl

theorem mergeGroup_key {b : Row α} {aux : List (Row β)} :
    ∀ r ∈ mergeGroup b aux, r.key = b.key := by
  intro r hr
  unfold mergeGroup at hr
  by_cases h : (aux.filter (fun a => a.key = b.key)).isEmpty
  · simp [h] at hr
    simp [hr]
  · simp [h] at hr
    obtain ⟨a, _, ha⟩ := hr
    simp [← ha]

theorem mergeGroup_fst {b : Row α} {aux : List (Row β)} :
    ∀ r ∈ mergeGroup b aux, r.fields.1 = b.fields := by
  intro r hr
  unfold mergeGroup at hr
  by_cases h : (aux.filter (fun a => a.key = b.key)).isEmpty
  · simp [h] at hr
    simp [hr]
  · simp [h] at hr
    obtain ⟨a, _, ha⟩ := hr
    simp [← ha]

theorem mergeGroup_ne_nil (b : Row α) (aux : List (Row β)) :
    mergeGroup b aux ≠ [] := by
  unfold mergeGroup
  by_cases h : (aux.filter (fun a => a.key = b.key)).isEmpty
  · simp [h]
  · simp [h]
    have h2 : (aux.filter (fun a => a.key = b.key)) ≠ [] := by
      simpa [List.isEmpty_iff] using h
    obtain ⟨x, hx⟩ := List.exists_mem_of_ne_nil _ h2
    rw [List.mem_filter] at hx
    exact ⟨x, hx.1, by simpa using hx.2⟩

/-! ### Key Reconciler lemmas -/

theorem applyAliases_of_not_mem_domain (l : List (String × String)) :
    ∀ s : String, s ∉ l.map Prod.fst → applyAliases l s = s := by
  induction l with
  | nil => intro s _; rfl
  | cons p rest ih =>
      intro s hs
      have h1 : s ≠ p.1 := by
        intro h; exact hs (by simp [h])
      have h2 : s ∉ rest.map Prod.fst := by
        intro h; exact hs (by simp [h])
      show applyAliases rest (aliasStep p s) = s
      rw [aliasStep, if_neg h1]
      exact ih s h2

theorem applyAliases_eq_or_mem_image (l : List (String × String)) :
    ∀ s : String, applyAliases l s = s ∨ applyAliases l s ∈ l.map Prod.snd := by
  induction l with
  | nil => intro s; exact Or.inl rfl
  | cons p rest ih =>
      intro s
      have hfold : applyAliases (p :: rest) s = applyAliases rest (aliasStep p s) := rfl
      by_cases h : s = p.1
      · rcases ih (aliasStep p s) with h2 | h2
        · right
          rw [hfold, h2, aliasStep, if_pos h]
          simp
        · right
          rw [hfold]
          simp only [List.map_cons, List.mem_cons]
          exact Or.inr h2
      · have hstep : aliasStep p s = s := by rw [aliasStep, if_neg h]
        rcases ih s with h2 | h2
        · left; rw [hfold, hstep]; exact h2
        · right
          rw [hfold, hstep]
          simp only [List.map_cons, List.mem_cons]
          exact Or.inr h2

theorem applyAliases_idem (l : List (String × String))
    (hd : ∀ v ∈ l.map Prod.snd, v ∉ l.map Prod.fst) (s : String) :
    applyAliases l (applyAliases l s) = applyAliases l s := by
  rcases applyAliases_eq_or_mem_image l s with h | h
  · rw [h]; exact h
  · exact applyAliases_of_not_mem_domain l _ (hd _ h)

/-! ### Claims C3 and C4: the Key Reconciler -/

/-- C3, counterexample: the claim says entity names are stripped of
surrounding whitespace BEFORE the alias lookup.  In the code the alias
chain runs first (lines 477-492) and `str.strip()` only later
(line 580), so the cell `" South Korea"` (leading space) misses its
alias entry and comes out as `"South Korea"`, whereas the claimed
strip-first order would produce the canonical `"S. Korea"`. -/
theorem strip_order_counterexample :
    areaKeyPipeline " South Korea" = "South Korea" ∧
    areaKeySpecOrder " South Korea" = "S. Korea" ∧
    ("South Korea" : String) ≠ "S. Korea" :=
  ⟨rfl, rfl, by decide⟩

/-- C3 (amended): the Key Reconciler performs an exact-match,
case-sensitive alias lookup with no prior whitespace stripping; the
leading/trailing whitespace strip is applied AFTER the lookup, just
before the merge.  A name with no alias entry passes through the lookup
unchanged, so the whole key transformation reduces to the whitespace
strip on such names. -/
theorem reconciler_strips_after_lookup (s : String)
    (hA : s ∉ areaAliases.map Prod.fst)
    (hG : s ∉ globalAliases.map Prod.fst) :
    applyAliases areaAliases s = s ∧ areaKeyPipeline s = stripWS s ∧
    applyAliases globalAliases s = s ∧ globalKeyPipeline s = stripWS s := by
  have h1 := applyAliases_of_not_mem_domain areaAliases s hA
  have h2 := applyAliases_of_not_mem_domain globalAliases s hG
  exact ⟨h1, by rw [areaKeyPipeline, h1], h2, by rw [globalKeyPipeline, h2]⟩

/-- Witness for C3's amended theorem at the concrete name
`"south korea"` (lower case, hence absent from both alias tables:
the lookup is case-sensitive and the name passes through). -/
theorem reconciler_strips_after_lookup_witness :
    ("south korea" ∉ areaAliases.map Prod.fst) ∧
    ("south korea" ∉ globalAliases.map Prod.fst) ∧
    applyAliases areaAliases "south korea" = "south korea" ∧
    areaKeyPipeline "south korea" = stripWS "south korea" :=
  ⟨by decide, by decide,
   (reconciler_strips_after_lookup "south korea" (by decide) (by decide)).1,
   (reconciler_strips_after_lookup "south korea" (by decide) (by decide)).2.1⟩

/-- C4: the Key Reconciler is idempotent.  A key already canonical
(in the alias mapping's image or absent from its domain) is returned
unchanged by both alias tables, and re-applying either alias mapping to
an already-reconciled key is a no-op, so reconciling twice equals
reconciling once. -/
theorem keyReconciler_idempotent (s : String)
    (hG : s ∈ globalAliases.map Prod.snd ∨ s ∉ globalAliases.map Prod.fst)
    (hA : s ∈ areaAliases.map Prod.snd ∨ s ∉ areaAliases.map Prod.fst) :
    applyAliases globalAliases s = s ∧ applyAliases areaAliases s = s ∧
    ∀ t : String,
      applyAliases globalAliases (applyAliases globalAliases t) =
        applyAliases globalAliases t ∧
      applyAliases areaAliases (applyAliases areaAliases t) =
        applyAliases areaAliases t := by
  have hdG : ∀ v ∈ globalAliases.map Prod.snd, v ∉ globalAliases.map Prod.fst := by
    decide
  have hdA : ∀ v ∈ areaAliases.map Prod.snd, v ∉ areaAliases.map Prod.fst := by
    decide
  refine ⟨?_, ?_, fun t => ⟨applyAliases_idem _ hdG t, applyAliases_idem _ hdA t⟩⟩
  · rcases hG with h | h
    · exact applyAliases_of_not_mem_domain _ _ (hdG _ h)
    · exact applyAliases_of_not_mem_domain _ _ h
  · rcases hA with h | h
    · exact applyAliases_of_not_mem_domain _ _ (hdA _ h)
    · exact applyAliases_of_not_mem_domain _ _ h

/-- Witness for C4 at the concrete canonical key `"United States"`
(the image of the alias entry for `"USA"`): reconciling it again
returns it unchanged. -/
theorem keyReconciler_idempotent_witness :
    ("United States" ∈ globalAliases.map Prod.snd ∨
      "United States" ∉ globalAliases.map Prod.fst) ∧
    ("United States" ∈ areaAliases.map Prod.snd ∨
      "United States" ∉ areaAliases.map Prod.fst) ∧
    applyAliases globalAliases "United States" = "United States" ∧
    applyAliases areaAliases "United States" = "United States" :=
  ⟨Or.inl (by decide), Or.inr (by decide),
   (keyReconciler_idempotent "United States" (Or.inl (by decide))
      (Or.inr (by decide))).1,
   (keyReconciler_idempotent "United States" (Or.inl (by decide))
      (Or.inr (by decide))).2.1⟩

/-! ### Claim C5: the Normalizer's treatment of parse failures -/

theorem toNumericCoerce_num_or_nan (c : String) :
    (∃ q : ℚ, toNumericCoerce c = .num q) ∨ toNumericCoerce c = .nan := by
  unfold toNumericCoerce
  cases parseSigned (stripWS c).data with
  | none => exact Or.inr rfl
  | some q => exact Or.inl ⟨q, rfl⟩

/-- C5, counterexample: the claim says a failed numeric parse yields
zero in every declared numeric column of either working table.  For the
US table there is no fill step after `pd.to_numeric(errors='coerce')`
(lines 681-685), so an unparseable cell stays NaN (null), not zero. -/
theorem us_parse_failure_counterexample :
    usNumericCell "N/A" = FloatVal.nan ∧ FloatVal.nan ≠ FloatVal.num 0 :=
  ⟨rfl, by decide⟩

/-- C5 (amended): on the global table every declared-numeric cell ends
up an actual finite number and a failed parse becomes exactly zero
(`fillna(0)`); on the US table a failed parse remains NaN (null) after
normalization — the nulls are only repaired later, for specific states,
by the scraping patch step. -/
theorem normalizer_parse_failure (c : String) :
    (∃ q : ℚ, globalNumericCell c = .num q) ∧
    (toNumericCoerce c = .nan → globalNumericCell c = .num 0) ∧
    (toNumericCoerce c = .nan → usNumericCell c = .nan) := by
  rcases toNumericCoerce_num_or_nan c with ⟨q, hq⟩ | h
  · refine ⟨⟨q, ?_⟩, ?_, ?_⟩
    · rw [globalNumericCell, hq]; rfl
    · intro h0; rw [hq] at h0; cases h0
    · intro h0; rw [hq] at h0; cases h0
  · refine ⟨⟨0, ?_⟩, ?_, ?_⟩
    · rw [globalNumericCell, h]; rfl
    · intro _; rw [globalNumericCell, h]; rfl
    · intro _; rw [usNumericCell, h]

/-- Witness for C5's amended theorem at the concrete unparseable cell
`"N/A"`. -/
theorem normalizer_parse_failure_witness :
    toNumericCoerce "N/A" = FloatVal.nan ∧
    globalNumericCell "N/A" = FloatVal.num 0 ∧
    usNumericCell "N/A" = FloatVal.nan :=
  ⟨rfl, (normalizer_parse_failure "N/A").2.1 rfl,
   (normalizer_parse_failure "N/A").2.2 rfl⟩

/-! ### Claim C1: zero denominators in the derived metrics -/

/-- C1, counterexample: the claim (and the specification's own boundary
example) says `TOTALCASES = 100, TOTALTESTS = 0` gives
`PERCENT_TESTS_POSITIVE = 0` on either working table.  On the US table
the infinity replacement is commented out (line 704), so the metric is
`+inf`; moreover on the global table `0/0` gives NaN (not replaced by
line 524, which only replaces infinities), and `POPULATION_DENSITY` is
computed after the replacement step and keeps `+inf`. -/
theorem zero_denominator_counterexample :
    usPercentTestsPositive 100 0 = FloatVal.posInf ∧
    FloatVal.posInf ≠ FloatVal.num 0 ∧
    globalDeathRate 0 0 = FloatVal.nan ∧
    populationDensity 100 0 = FloatVal.posInf := by
  refine ⟨?_, by decide, ?_, ?_⟩ <;> decide

/-- C1 (amended): only the global table's `DEATH_RATE`,
`SURVIVAL_RATE` and `PERCENT_TESTS_POSITIVE` are protected, and only
against infinities: with a zero denominator and a nonzero numerator
they are exactly zero; a `0/0` yields NaN, which survives;
`POPULATION_DENSITY` (computed after the replacement) and every US
metric (replacement commented out) keep their non-finite values. -/
theorem derived_metric_zero_denominator (a p : ℚ) (ha : a ≠ 0) (hp : 0 < p) :
    globalDeathRate a 0 = FloatVal.num 0 ∧
    globalSurvivalRate a 0 = FloatVal.num 0 ∧
    globalPercentTestsPositive a 0 = FloatVal.num 0 ∧
    globalDeathRate 0 0 = FloatVal.nan ∧
    populationDensity p 0 = FloatVal.posInf ∧
    usDeathRate p 0 = FloatVal.posInf ∧
    usSurvivalRate (-p) 0 = FloatVal.negInf ∧
    usPercentTestsPositive p 0 = FloatVal.posInf := by
  have key : ∀ x : ℚ, x ≠ 0 → replaceInfsZero (fdiv x 0) = FloatVal.num 0 := by
    intro x hx
    rcases hx.lt_or_lt with h | h
    · rw [fdiv, if_pos rfl, if_neg (not_lt.mpr h.le), if_pos h]; rfl
    · rw [fdiv, if_pos rfl, if_pos h]; rfl
  have hpos : ∀ x : ℚ, 0 < x → fdiv x 0 = FloatVal.posInf := by
    intro x hx
    rw [fdiv, if_pos rfl, if_pos hx]
  have hneg : fdiv (-p) 0 = FloatVal.negInf := by
    rw [fdiv, if_pos rfl, if_neg (not_lt.mpr (neg_nonpos.mpr hp.le)),
      if_pos (neg_neg_iff_pos.mpr hp)]
  exact ⟨key a ha, key a ha, key a ha, by decide, hpos p hp,
    hpos p hp, hneg, hpos p hp⟩

/-- Witness for C1's amended theorem at numerator 100 and population 50. -/
theorem derived_metric_zero_denominator_witness :
    (100 : ℚ) ≠ 0 ∧ (0 : ℚ) < 50 ∧
    globalPercentTestsPositive 100 0 = FloatVal.num 0 ∧
    usPercentTestsPositive 50 0 = FloatVal.posInf :=
  ⟨by norm_num, by norm_num,
   (derived_metric_zero_denominator 100 50 (by norm_num) (by norm_num)).2.2.1,
   (derived_metric_zero_denominator 100 50 (by norm_num) (by norm_num)).2.2.2.2.2.2.2⟩

/-! ### Claim C6: raw cell cleaning -/

theorem dropWhile_head?_not (p : α → Bool) :
    ∀ (l : List α) (a : α), (List.dropWhile p l).head? = some a → p a = false := by
  intro l
  induction l with
  | nil => intro a h; cases h
  | cons x xs ih =>
      intro a h
      rw [List.dropWhile_cons] at h
      by_cases hx : p x = true
      · rw [if_pos hx] at h
        exact ih a h
      · rw [if_neg hx] at h
        cases h
        simpa using hx

theorem dropWhile_getLast? (p : α → Bool) :
    ∀ l : List α, List.dropWhile p l ≠ [] →
      (List.dropWhile p l).getLast? = l.getLast? := by
  intro l
  induction l with
  | nil => intro h; exact absurd rfl h
  | cons x xs ih =>
      intro h
      rw [List.dropWhile_cons] at h ⊢
      by_cases hx : p x = true
      · rw [if_pos hx] at h ⊢
        have hxs : xs ≠ [] := by
          intro he; rw [he] at h; exact h rfl
        obtain ⟨y, ys, rfl⟩ := List.exists_cons_of_ne_nil hxs
        rw [ih h, List.getLast?_cons_cons]
      · rw [if_neg hx]

/-- `stripCharBoth` only deletes characters. -/
theorem stripCharBoth_sublist (c : Char) (s : String) :
    (stripCharBoth c s).data.Sublist s.data := by
  unfold stripCharBoth
  have h1 : ((s.data.dropWhile (fun x => x = c)).reverse.dropWhile
      (fun x => x = c)).Sublist (s.data.dropWhile (fun x => x = c)).reverse :=
    List.dropWhile_sublist _
  have h2 := h1.reverse
  rw [List.reverse_reverse] at h2
  exact h2.trans (List.dropWhile_sublist _)

theorem stripCharBoth_getLast? (c : Char) (s : String) :
    (stripCharBoth c s).data.getLast? ≠ some c := by
  unfold stripCharBoth
  intro h
  rw [List.getLast?_reverse] at h
  have := dropWhile_head?_not (fun x => x = c) _ _ h
  simp at this

theorem stripCharBoth_head? (c : Char) (s : String) :
    (stripCharBoth c s).data.head? ≠ some c := by
  unfold stripCharBoth
  intro h
  rw [List.head?_reverse] at h
  set m := (s.data.dropWhile (fun x => x = c)).reverse with hm
  by_cases hnil : List.dropWhile (fun x => x = c) m = []
  · rw [hnil] at h
    cases h
  · rw [dropWhile_getLast? _ m hnil, hm, List.getLast?_reverse] at h
    have := dropWhile_head?_not (fun x => x = c) _ _ h
    simp at this

/-- C6, counterexample: the claim says every raw cell is cleaned by
stripping newlines, commas, LEADING `'+'` markers, and then
surrounding whitespace, before type coercion.  The code strips `'+'`
from both ends and never strips surrounding whitespace at this stage,
so on the raw cell `" 5+"` the code produces `" 5"` while the claimed
transformation produces `"5+"`. -/
theorem clean_cell_counterexample :
    cleanCell " 5+" = " 5" ∧ cleanCellSpecOrder " 5+" = "5+" ∧
    cleanCell " 5+" ≠ cleanCellSpecOrder " 5+" := by
  refine ⟨rfl, rfl, ?_⟩
  decide

/-- C6 (amended): the cleaning removes every newline, then every comma,
then strips `'+'` from BOTH ends, in that order; it deletes characters
only (never inserts or changes any), and it does not strip surrounding
whitespace (only the entity-key column is stripped, later, just before
the merges). -/
theorem clean_cell_props (s : String) :
    (cleanCell s).data.Sublist s.data ∧
    '\n' ∉ (cleanCell s).data ∧
    ',' ∉ (cleanCell s).data ∧
    (cleanCell s).data.head? ≠ some '+' ∧
    (cleanCell s).data.getLast? ≠ some '+' := by
  have hsub0 : (cleanCell s).data.Sublist
      (removeAllChar ',' (removeAllChar '\n' s)).data :=
    stripCharBoth_sublist '+' _
  refine ⟨?_, ?_, ?_, stripCharBoth_head? '+' _, stripCharBoth_getLast? '+' _⟩
  · refine hsub0.trans ?_
    show ((removeAllChar '\n' s).data.filter (fun x => x ≠ ',')).Sublist s.data
    exact (List.filter_sublist _).trans (List.filter_sublist _)
  · intro hmem
    have h2 := hsub0.subset hmem
    show False
    have h3 : ('\n' : Char) ∈ (removeAllChar '\n' s).data := by
      have := List.mem_filter.mp h2
      exact this.1
    rw [removeAllChar] at h3
    have := List.mem_filter.mp h3
    simp at this
  · intro hmem
    have h2 := hsub0.subset hmem
    rw [removeAllChar] at h2
    have := List.mem_filter.mp h2
    simp at this

/-- Witness for C6's amended theorem at the concrete raw cell
`",\n+12+"`. -/
theorem clean_cell_props_witness :
    (cleanCell ",\n+12+").data.Sublist (",\n+12+" : String).data ∧
    '\n' ∉ (cleanCell ",\n+12+").data ∧
    ',' ∉ (cleanCell ",\n+12+").data :=
  ⟨(clean_cell_props ",\n+12+").1, (clean_cell_props ",\n+12+").2.1,
   (clean_cell_props ",\n+12+").2.2.1⟩

/-! ### Claim C2: left-join cardinality -/

theorem filter_key_of_nodup (aux : List (Row β)) (k : String)
    (h : (aux.map Row.key).Nodup) :
    aux.filter (fun a => a.key = k) = [] ∨
    ∃ a, aux.find? (fun x => x.key = k) = some a ∧
      aux.filter (fun x => x.key = k) = [a] := by
  induction aux with
  | nil => left; rfl
  | cons a rest ih =>
      rw [List.map_cons, List.nodup_cons] at h
      by_cases hk : a.key = k
      · right
        refine ⟨a, List.find?_cons_of_pos _ (by simpa using hk), ?_⟩
        rw [List.filter_cons_of_pos (by simpa using hk)]
        have hrest : rest.filter (fun x => x.key = k) = [] := by
          rw [List.filter_eq_nil_iff]
          intro x hx
          simp only [decide_eq_true_eq]
          intro hxk
          have hmem : x.key ∈ rest.map Row.key := List.mem_map_of_mem Row.key hx
          rw [hxk, ← hk] at hmem
          exact h.1 hmem
        rw [hrest]
      · rw [List.filter_cons_of_neg (by simpa using hk),
          List.find?_cons_of_neg _ (by simpa using hk)]
        exact ih h.2

theorem mergeGroup_of_nodup (b : Row α) (aux : List (Row β))
    (h : (aux.map Row.key).Nodup) :
    mergeGroup b aux = [⟨b.key, (b.fields, lookupAux aux b.key)⟩] := by
  rcases filter_key_of_nodup aux b.key h with hf | ⟨a, hfind, hfil⟩
  · have hnone : lookupAux aux b.key = none := by
      rw [lookupAux]
      have hn : aux.find? (fun x => x.key = b.key) = none := by
        rw [List.find?_eq_none]
        intro x hx
        exact List.filter_eq_nil_iff.mp hf x hx
      rw [hn]
      rfl
    rw [hnone]
    simp [mergeGroup, hf]
  · have hsome : lookupAux aux b.key = some a.fields := by
      rw [lookupAux, hfind]
      rfl
    rw [hsome]
    simp [mergeGroup, hfil]

theorem leftMerge_eq_map_of_nodup (base : List (Row α)) (aux : List (Row β))
    (h : (aux.map Row.key).Nodup) :
    leftMerge base aux =
      base.map (fun b => Row.mk b.key (b.fields, lookupAux aux b.key)) := by
  induction base with
  | nil => rfl
  | cons b rest ih =>
      rw [leftMerge_cons, mergeGroup_of_nodup b aux h, ih, List.map_cons]
      rfl

/-- C2, counterexample: the claim says every left merge on the entity
key returns exactly one record per base record.  Pandas' left merge
duplicates a base row once per matching auxiliary row, so with an
auxiliary table holding two rows for the same key the merged table has
two records for a one-record base table. -/
theorem merge_cardinality_counterexample :
    (leftMerge [Row.mk "France" (0 : ℤ)]
        [Row.mk "France" (1 : ℤ), Row.mk "France" (2 : ℤ)]).length = 2 ∧
    ([Row.mk "France" (0 : ℤ)] : List (Row ℤ)).length = 1 ∧
    (2 : ℕ) ≠ 1 := by
  refine ⟨by decide, by decide, by decide⟩

/-- C2 (amended): PROVIDED the auxiliary table has at most one record
per key, the merged table has exactly as many records as the base table
and exactly one record per base record, in base order: its key column
is the base key column, every merged key comes from a base key
(auxiliary rows matching no base key are dropped), and a base row
matched by no auxiliary key is kept with null in the auxiliary
fields. -/
theorem left_merge_cardinality (base : List (Row α)) (aux : List (Row β))
    (h : (aux.map Row.key).Nodup) :
    (leftMerge base aux).length = base.length ∧
    (leftMerge base aux).map Row.key = base.map Row.key ∧
    (∀ r ∈ leftMerge base aux, r.key ∈ base.map Row.key) ∧
    (∀ b ∈ base, (∀ a ∈ aux, a.key ≠ b.key) →
      Row.mk b.key (b.fields, (none : Option β)) ∈ leftMerge base aux) := by
  rw [leftMerge_eq_map_of_nodup base aux h]
  refine ⟨by rw [List.length_map], ?_, ?_, ?_⟩
  · rw [List.map_map]
    rfl
  · intro r hr
    rw [List.mem_map] at hr
    obtain ⟨b, hb, rfl⟩ := hr
    exact List.mem_map_of_mem Row.key hb
  · intro b hb hno
    have hnone : lookupAux aux b.key = none := by
      rw [lookupAux]
      have hn : aux.find? (fun x => x.key = b.key) = none := by
        rw [List.find?_eq_none]
        intro x hx
        simpa using hno x hx
      rw [hn]
      rfl
    have heq : (fun b : Row α => Row.mk b.key (b.fields, lookupAux aux b.key)) b =
        Row.mk b.key (b.fields, (none : Option β)) := by
      show Row.mk b.key (b.fields, lookupAux aux b.key) = _
      rw [hnone]
    rw [← heq]
    exact List.mem_map_of_mem _ hb

/-- Witness for C2's amended theorem: a two-country base against a
duplicate-free auxiliary table with one overlapping key preserves the
base cardinality. -/
theorem left_merge_cardinality_witness :
    ((([Row.mk "Germany" (40 : ℚ)] : List (Row ℚ)).map Row.key).Nodup) ∧
    (leftMerge [Row.mk "Germany" (1 : ℤ), Row.mk "Peru" (2 : ℤ)]
        [Row.mk "Germany" (40 : ℚ)]).length =
      ([Row.mk "Germany" (1 : ℤ), Row.mk "Peru" (2 : ℤ)] : List (Row ℤ)).length :=
  ⟨by decide, (left_merge_cardinality _ _ (by decide)).1⟩

/-! ### Claim C7: the fixed exclusion list -/

theorem dropExcluded_mergeGroup (b : Row α) (aux : List (Row β)) :
    dropExcluded (mergeGroup b aux) =
      if b.key ∉ shipExclusions then mergeGroup b aux else [] := by
  by_cases hp : b.key ∉ shipExclusions
  · rw [if_pos hp]
    unfold dropExcluded
    rw [List.filter_eq_self]
    intro r hr
    have hk := mergeGroup_key r hr
    rw [hk]
    exact decide_eq_true hp
  · rw [if_neg hp]
    unfold dropExcluded
    rw [List.filter_eq_nil_iff]
    intro r hr
    have hk := mergeGroup_key r hr
    rw [hk]
    simpa using hp

theorem dropExcluded_leftMerge (g : List (Row α)) (aux : List (Row β)) :
    dropExcluded (leftMerge g aux) = leftMerge (dropExcluded g) aux := by
  induction g with
  | nil => rfl
  | cons b rest ih =>
      have hsplit : dropExcluded (leftMerge (b :: rest) aux) =
          dropExcluded (mergeGroup b aux) ++ dropExcluded (leftMerge rest aux) := by
        rw [leftMerge_cons]
        unfold dropExcluded
        rw [List.filter_append]
      rw [hsplit, dropExcluded_mergeGroup, ih]
      by_cases hb : b.key ∉ shipExclusions
      · rw [if_pos hb]
        have hcons : dropExcluded (b :: rest) = b :: dropExcluded rest := by
          unfold dropExcluded
          exact List.filter_cons_of_pos (decide_eq_true hb)
        rw [hcons, leftMerge_cons]
      · rw [if_neg hb]
        have hcons : dropExcluded (b :: rest) = dropExcluded rest := by
          unfold dropExcluded
          exact List.filter_cons_of_neg (by simpa using hb)
        rw [hcons, List.nil_append]

/-- C7: rows whose key is on the fixed exclusion list (the ships
`"Diamond Princess"` and `"MS Zaandam"`) are removed by exact key
match, no other rows are removed by this step, and — although the code
performs the drop between the GDP merge and the land-area merge — the
drop commutes with the left merge, so the resulting table equals the
one obtained by removing those keys after all scheduled merges. -/
theorem excluded_ships (g : List (Row α)) (area : List (Row β)) :
    dropExcluded (leftMerge g area) = leftMerge (dropExcluded g) area ∧
    (∀ r ∈ dropExcluded g, r ∈ g ∧ r.key ∉ shipExclusions) ∧
    (∀ r ∈ g, r.key ∉ shipExclusions → r ∈ dropExcluded g) := by
  refine ⟨dropExcluded_leftMerge g area, ?_, ?_⟩
  · intro r hr
    unfold dropExcluded at hr
    have h2 := List.mem_filter.mp hr
    exact ⟨h2.1, of_decide_eq_true h2.2⟩
  · intro r hr hk
    unfold dropExcluded
    exact List.mem_filter.mpr ⟨hr, decide_eq_true hk⟩

/-- Witness for C7 at a concrete two-row table holding one ship: the
drop commutes with a merge and keeps exactly the non-ship row. -/
theorem excluded_ships_witness :
    dropExcluded (leftMerge
        [Row.mk "Diamond Princess" (1 : ℤ), Row.mk "Japan" (2 : ℤ)]
        ([Row.mk "Japan" (3 : ℚ)])) =
      leftMerge (dropExcluded
        [Row.mk "Diamond Princess" (1 : ℤ), Row.mk "Japan" (2 : ℤ)])
        ([Row.mk "Japan" (3 : ℚ)]) ∧
    Row.mk "Japan" (2 : ℤ) ∈
      dropExcluded [Row.mk "Diamond Princess" (1 : ℤ), Row.mk "Japan" (2 : ℤ)] :=
  ⟨(excluded_ships _ _).1,
   (excluded_ships [Row.mk "Diamond Princess" (1 : ℤ), Row.mk "Japan" (2 : ℤ)]
      ([Row.mk "Japan" (3 : ℚ)])).2.2 _ (by decide) (by decide)⟩

/-! ### Claim C8: the GDP null-repair round trip -/

/-- C8, counterexample: the claim says that left-merging a corrected
replacement table FOR THE NULL KEYS (after dropping the old column)
fills the previously-null cells and leaves every other cell unchanged.
Because the old column is dropped first, a replacement covering only
the null keys erases the previously non-null cells: here Albania's GDP
was `some 5` before the repair and is null after it. -/
theorem gdp_roundtrip_counterexample :
    gdpRepair
        [Row.mk "Albania" ((some 5 : Option ℚ), (1 : ℤ)),
         Row.mk "Burundi" ((none : Option ℚ), (2 : ℤ))]
        [Row.mk "Burundi" (7 : ℚ)] =
      [Row.mk "Albania" ((1 : ℤ), (none : Option ℚ)),
       Row.mk "Burundi" ((2 : ℤ), (some 7 : Option ℚ))] ∧
    (none : Option ℚ) ≠ some 5 :=
  ⟨by decide, by decide⟩

/-- C8 (amended): the workflow exports the WHOLE GDP column (all keys
with their current values, `gdp_entry`), and the corrected table covers
every base key, is duplicate-free, and agrees with the old column
wherever that column was non-null.  Under these conditions dropping the
old column and left-merging the corrected table yields a table with the
same records in the same order in which every GDP cell is filled, the
previously non-null GDP cells keep their old value, and every other
cell (key and non-GDP fields) is unchanged. -/
theorem gdp_roundtrip (base : List (Row (Option ℚ × γ))) (upd : List (Row ℚ))
    (hnd : (upd.map Row.key).Nodup)
    (hcov : ∀ b ∈ base, ∃ r ∈ upd, r.key = b.key)
    (hagr : ∀ b ∈ base, ∀ r ∈ upd, r.key = b.key →
      ∀ q : ℚ, b.fields.1 = some q → r.fields = q) :
    (gdpRepair base upd).length = base.length ∧
    ∀ i (h1 : i < (gdpRepair base upd).length) (h2 : i < base.length),
      ((gdpRepair base upd).get ⟨i, h1⟩).key = (base.get ⟨i, h2⟩).key ∧
      ((gdpRepair base upd).get ⟨i, h1⟩).fields.1 = (base.get ⟨i, h2⟩).fields.2 ∧
      ∃ q : ℚ, ((gdpRepair base upd).get ⟨i, h1⟩).fields.2 = some q ∧
        ∀ q0 : ℚ, (base.get ⟨i, h2⟩).fields.1 = some q0 → q = q0 := by
  have hmap : gdpRepair base upd =
      base.map (fun b => Row.mk b.key (b.fields.2, lookupAux upd b.key)) := by
    rw [gdpRepair, leftMerge_eq_map_of_nodup _ _ hnd, List.map_map]
    rfl
  constructor
  · rw [hmap, List.length_map]
  · intro i h1 h2
    have hget : (gdpRepair base upd).get ⟨i, h1⟩ =
        Row.mk (base.get ⟨i, h2⟩).key
          ((base.get ⟨i, h2⟩).fields.2, lookupAux upd (base.get ⟨i, h2⟩).key) := by
      simp only [hmap, List.get_eq_getElem, List.getElem_map]
    have hbmem : base.get ⟨i, h2⟩ ∈ base := List.get_mem base i h2
    obtain ⟨r, hr, hkey⟩ := hcov _ hbmem
    have hfs : (upd.find? (fun a => a.key = (base.get ⟨i, h2⟩).key)).isSome :=
      List.find?_isSome.mpr ⟨r, hr, by simpa using hkey⟩
    obtain ⟨a, ha⟩ := Option.isSome_iff_exists.mp hfs
    have hamem : a ∈ upd := List.mem_of_find?_eq_some ha
    have hpa := List.find?_some ha
    have hak : a.key = (base.get ⟨i, h2⟩).key := of_decide_eq_true hpa
    have hlook : lookupAux upd (base.get ⟨i, h2⟩).key = some a.fields := by
      rw [lookupAux, ha]
      rfl
    rw [hget]
    refine ⟨rfl, rfl, a.fields, hlook, ?_⟩
    intro q0 hq0
    exact hagr _ hbmem a hamem hak q0 hq0

/-- Witness for C8's amended theorem at a one-row base whose GDP cell
is null and a corrected table supplying the value 9 for its key. -/
theorem gdp_roundtrip_witness :
    ((([Row.mk "Benin" (9 : ℚ)] : List (Row ℚ)).map Row.key).Nodup) ∧
    (gdpRepair [Row.mk "Benin" ((none : Option ℚ), (3 : ℤ))]
        [Row.mk "Benin" (9 : ℚ)]).length =
      ([Row.mk "Benin" ((none : Option ℚ), (3 : ℤ))] :
        List (Row (Option ℚ × ℤ))).length := by
  refine ⟨by decide, ?_⟩
  refine (gdp_roundtrip _ _ (by decide) ?_ ?_).1
  · intro b hb
    rw [List.mem_singleton] at hb
    subst hb
    exact ⟨Row.mk "Benin" (9 : ℚ), by simp, rfl⟩
  · intro b hb r hr hk q hq
    rw [List.mem_singleton] at hb
    subst hb
    simp at hq

/-! ### Claim C9: the eight-state patch of `us_data` -/

theorem patchStates_eq_map (ps : List (String × ℚ × ℚ)) :
    ∀ t : List (USRow δ), patchStates ps t = t.map (patchRowAll ps) := by
  induction ps with
  | nil =>
      intro t
      show t = t.map (patchRowAll [])
      rw [show (patchRowAll ([] : List (String × ℚ × ℚ)) : USRow δ → USRow δ)
          = id from rfl, List.map_id]
  | cons p rest ih =>
      intro t
      show patchStates rest (setStateValues p t) = t.map (patchRowAll (p :: rest))
      rw [ih (setStateValues p t), setStateValues, List.map_map]
      rfl

theorem patchRow_state (p : String × ℚ × ℚ) (r : USRow δ) :
    (patchRow p r).state = r.state := by
  rw [patchRow]
  split <;> rfl

theorem patchRow_totalcases (p : String × ℚ × ℚ) (r : USRow δ) :
    (patchRow p r).totalcases = r.totalcases := by
  rw [patchRow]
  split <;> rfl

theorem patchRow_rest (p : String × ℚ × ℚ) (r : USRow δ) :
    (patchRow p r).rest = r.rest := by
  rw [patchRow]
  split <;> rfl

theorem patchRowAll_state (ps : List (String × ℚ × ℚ)) :
    ∀ r : USRow δ, (patchRowAll ps r).state = r.state := by
  induction ps with
  | nil => intro r; rfl
  | cons p rest ih =>
      intro r
      show (patchRowAll rest (patchRow p r)).state = r.state
      rw [ih (patchRow p r), patchRow_state]

theorem patchRowAll_totalcases (ps : List (String × ℚ × ℚ)) :
    ∀ r : USRow δ, (patchRowAll ps r).totalcases = r.totalcases := by
  induction ps with
  | nil => intro r; rfl
  | cons p rest ih =>
      intro r
      show (patchRowAll rest (patchRow p r)).totalcases = r.totalcases
      rw [ih (patchRow p r), patchRow_totalcases]

theorem patchRowAll_rest (ps : List (String × ℚ × ℚ)) :
    ∀ r : USRow δ, (patchRowAll ps r).rest = r.rest := by
  induction ps with
  | nil => intro r; rfl
  | cons p rest ih =>
      intro r
      show (patchRowAll rest (patchRow p r)).rest = r.rest
      rw [ih (patchRow p r), patchRow_rest]

theorem patchRowAll_not_mem (ps : List (String × ℚ × ℚ)) (r : USRow δ)
    (h : r.state ∉ ps.map Prod.fst) : patchRowAll ps r = r := by
  induction ps with
  | nil => rfl
  | cons p rest ih =>
      have h1 : r.state ≠ p.1 := fun he => h (by simp [he])
      have h2 : r.state ∉ rest.map Prod.fst := fun hm => h (by simp [hm])
      show patchRowAll rest (patchRow p r) = r
      rw [patchRow, if_neg h1]
      exact ih h2

theorem patchRowAll_mem (r : USRow δ) :
    ∀ ps : List (String × ℚ × ℚ), (ps.map Prod.fst).Nodup →
      ∀ (n : String) (v : ℚ × ℚ), (n, v) ∈ ps → r.state = n →
        patchRowAll ps r =
          { r with totalrecovered := .num v.1, activecases := .num v.2,
                   survival_rate := fdiv v.1 r.totalcases } := by
  intro ps
  induction ps with
  | nil => intro _ n v hmem; cases hmem
  | cons p rest ih =>
      intro hnd n v hmem hs
      rw [List.map_cons, List.nodup_cons] at hnd
      rcases List.mem_cons.mp hmem with he | hm
      · have hs1 : r.state = p.1 := by rw [hs, ← he]
        have hrest : patchRowAll rest
            { r with totalrecovered := .num p.2.1, activecases := .num p.2.2,
                     survival_rate := fdiv p.2.1 r.totalcases } =
            { r with totalrecovered := .num p.2.1, activecases := .num p.2.2,
                     survival_rate := fdiv p.2.1 r.totalcases } := by
          apply patchRowAll_not_mem
          show r.state ∉ _
          rw [hs1]
          exact hnd.1
        show patchRowAll rest (patchRow p r) = _
        rw [patchRow, if_pos hs1, hrest, ← he]
      · have hn_in : n ∈ rest.map Prod.fst := List.mem_map_of_mem Prod.fst hm
        have hne : r.state ≠ p.1 := by
          rw [hs]
          intro he2
          rw [he2] at hn_in
          exact hnd.1 hn_in
        show patchRowAll rest (patchRow p r) = _
        rw [patchRow, if_neg hne]
        exact ih hnd.2 n v hm hs

/-- C9: the in-place repair of the eight named states.  Writing the
patch list `ps` of the eight `.at` blocks in program order, the whole
patch maps each row independently; a row whose `STATE` is none of the
eight names is completely unchanged; a row with a patched name gets
exactly its scraped `TOTALRECOVERED` and `ACTIVECASES` values and a
`SURVIVAL_RATE` equal to the scraped recovered count divided by that
row's existing `TOTALCASES`; and `STATE`, `TOTALCASES` and all
remaining fields are unchanged for every row. -/
theorem us_state_patch (hr ha sr sa ir ia wr wa ar aa lr la nr na mr ma : ℚ)
    (t : List (USRow δ)) (ps : List (String × ℚ × ℚ))
    (hps : ps = usPatchList hr ha sr sa ir ia wr wa ar aa lr la nr na mr ma) :
    patchStates ps t = t.map (patchRowAll ps) ∧
    ∀ r : USRow δ,
      ((patchRowAll ps r).state = r.state ∧
       (patchRowAll ps r).totalcases = r.totalcases ∧
       (patchRowAll ps r).rest = r.rest) ∧
      (r.state ∉ ps.map Prod.fst → patchRowAll ps r = r) ∧
      (r.state = "Hawaii" → patchRowAll ps r =
        { r with totalrecovered := FloatVal.num hr, activecases := FloatVal.num ha,
                 survival_rate := fdiv hr r.totalcases }) ∧
      (r.state = "South Carolina" → patchRowAll ps r =
        { r with totalrecovered := FloatVal.num sr, activecases := FloatVal.num sa,
                 survival_rate := fdiv sr r.totalcases }) ∧
      (r.state = "Indiana" → patchRowAll ps r =
        { r with totalrecovered := FloatVal.num ir, activecases := FloatVal.num ia,
                 survival_rate := fdiv ir r.totalcases }) ∧
      (r.state = "Wisconsin" → patchRowAll ps r =
        { r with totalrecovered := FloatVal.num wr, activecases := FloatVal.num wa,
                 survival_rate := fdiv wr r.totalcases }) ∧
      (r.state = "Alabama" → patchRowAll ps r =
        { r with totalrecovered := FloatVal.num ar, activecases := FloatVal.num aa,
                 survival_rate := fdiv ar r.totalcases }) ∧
      (r.state = "Louisiana" → patchRowAll ps r =
        { r with totalrecovered := FloatVal.num lr, activecases := FloatVal.num la,
                 survival_rate := fdiv lr r.totalcases }) ∧
      (r.state = "Nebraska" → patchRowAll ps r =
        { r with totalrecovered := FloatVal.num nr, activecases := FloatVal.num na,
                 survival_rate := fdiv nr r.totalcases }) ∧
      (r.state = "Maine" → patchRowAll ps r =
        { r with totalrecovered := FloatVal.num mr, activecases := FloatVal.num ma,
                 survival_rate := fdiv mr r.totalcases }) := by
  subst hps
  have hnd : ((usPatchList hr ha sr sa ir ia wr wa ar aa lr la nr na mr
      ma).map Prod.fst).Nodup := by
    show (["Hawaii", "South Carolina", "Indiana", "Wisconsin", "Alabama",
      "Louisiana", "Nebraska", "Maine"] : List String).Nodup
    decide
  refine ⟨patchStates_eq_map _ t, ?_⟩
  intro r
  refine ⟨⟨patchRowAll_state _ r, patchRowAll_totalcases _ r,
    patchRowAll_rest _ r⟩, fun h => patchRowAll_not_mem _ r h, ?_, ?_, ?_, ?_,
    ?_, ?_, ?_, ?_⟩ <;>
    intro hs
  · exact patchRowAll_mem r _ hnd _ (hr, ha) (by simp [usPatchList]) hs
  · exact patchRowAll_mem r _ hnd _ (sr, sa) (by simp [usPatchList]) hs
  · exact patchRowAll_mem r _ hnd _ (ir, ia) (by simp [usPatchList]) hs
  · exact patchRowAll_mem r _ hnd _ (wr, wa) (by simp [usPatchList]) hs
  · exact patchRowAll_mem r _ hnd _ (ar, aa) (by simp [usPatchList]) hs
  · exact patchRowAll_mem r _ hnd _ (lr, la) (by simp [usPatchList]) hs
  · exact patchRowAll_mem r _ hnd _ (nr, na) (by simp [usPatchList]) hs
  · exact patchRowAll_mem r _ hnd _ (mr, ma) (by simp [usPatchList]) hs

/-- Witness for C9 at concrete scraped values and a concrete Hawaii
row: only the three fields change and the survival rate is the scraped
recovered count over the row's existing total cases. -/
theorem us_state_patch_witness :
    patchRowAll (usPatchList 1 2 3 4 5 6 7 8 9 10 11 12 13 14 15 16)
        (USRow.mk "Hawaii" 50 FloatVal.nan FloatVal.nan FloatVal.nan (0 : ℤ)) =
      USRow.mk "Hawaii" 50 (FloatVal.num 1) (FloatVal.num 2) (fdiv 1 50) (0 : ℤ) := by
  have h := (us_state_patch 1 2 3 4 5 6 7 8 9 10 11 12 13 14 15 16
      ([] : List (USRow ℤ)) _ rfl).2
      (USRow.mk "Hawaii" 50 FloatVal.nan FloatVal.nan FloatVal.nan (0 : ℤ))
  exact h.2.2.1 rfl

/-! ### Claim C10: descending order and the top-ten table -/

theorem leftMerge_mem_source (base : List (Row α)) (aux : List (Row β)) :
    ∀ y ∈ leftMerge base aux, ∃ b ∈ base, y.fields.1 = b.fields := by
  induction base with
  | nil => intro y hy; cases hy
  | cons b rest ih =>
      intro y hy
      rw [leftMerge_cons, List.mem_append] at hy
      rcases hy with hy | hy
      · exact ⟨b, List.mem_cons_self b rest, mergeGroup_fst y hy⟩
      · obtain ⟨b', hb', he⟩ := ih y hy
        exact ⟨b', List.mem_cons_of_mem b hb', he⟩

theorem pairwise_leftMerge (mb : α → ℤ) (base : List (Row α)) (aux : List (Row β))
    (h : List.Pairwise (fun x y : Row α => mb y.fields ≤ mb x.fields) base) :
    List.Pairwise (fun x y : Row (α × Option β) => mb y.fields.1 ≤ mb x.fields.1)
      (leftMerge base aux) := by
  induction base with
  | nil => exact List.Pairwise.nil
  | cons b rest ih =>
      rw [leftMerge_cons, List.pairwise_append]
      obtain ⟨hb, hrest⟩ := List.pairwise_cons.mp h
      refine ⟨?_, ih hrest, ?_⟩
      · apply List.pairwise_of_forall_mem_list
        intro x hx y hy
        rw [mergeGroup_fst x hx, mergeGroup_fst y hy]
      · intro x hx y hy
        rw [mergeGroup_fst x hx]
        obtain ⟨b', hb', hy'⟩ := leftMerge_mem_source rest aux y hy
        rw [hy']
        exact hb b' hb'

/-- C10: the working global table, from the `TOTALCASES` sort through
the merges and the ship-row drop, stays in non-increasing `TOTALCASES`
order (each left merge emits base rows in order carrying their
`TOTALCASES`, and the row drop preserves relative order), and
`top_cases` is exactly its first ten records. -/
theorem top_cases_first_ten (m : α → ℤ) (g : List (Row α))
    (gdp : List (Row (Option ℚ))) (upd : List (Row γ)) (area : List (Row ε)) :
    List.Pairwise
      (fun x y : Row ((α × Option γ) × Option ε) =>
        m y.fields.1.1 ≤ m x.fields.1.1)
      (globalWorking m g gdp upd area) ∧
    topCases m g gdp upd area = (globalWorking m g gdp upd area).take 10 := by
  refine ⟨?_, rfl⟩
  have h0 : List.Pairwise (fun x y : Row α => m y.fields ≤ m x.fields)
      (sortByCasesDesc m g) := List.sorted_insertionSort (casesDesc m) g
  have h1 := pairwise_leftMerge m (sortByCasesDesc m g) gdp h0
  have h2 : List.Pairwise (fun x y : Row α => m y.fields ≤ m x.fields)
      ((leftMerge (sortByCasesDesc m g) gdp).map
        (fun r => Row.mk r.key r.fields.1)) :=
    List.pairwise_map.mpr h1
  have h3 := pairwise_leftMerge m _ upd h2
  have h4 : List.Pairwise
      (fun x y : Row (α × Option γ) => m y.fields.1 ≤ m x.fields.1)
      (dropExcluded (leftMerge
        ((leftMerge (sortByCasesDesc m g) gdp).map
          (fun r => Row.mk r.key r.fields.1)) upd)) := by
    unfold dropExcluded
    exact List.Pairwise.filter _ h3
  exact pairwise_leftMerge (fun fl : α × Option γ => m fl.1) _ area h4

end Covid
